import Mathlib

/-!
# Verification of the transcript-to-turn segmentation and analytics engine

Shallow embedding of `src/transcript_reader.py` from the
`claude-confessional` repository, together with proofs of the
specification claims about it.

Conventions of the embedding:
* Python strings are Lean `String`s (Python `len`/slicing count code
  points, as does `String.length`/`List Char`); character classes
  (whitespace, word characters) are modelled over their ASCII fragment,
  which covers every constant and example appearing in the claims.
* JSON dictionaries are modelled at the granularity the code reads them:
  a missing or falsy field is the relevant default (`""`, `0`, `[]`).
* Numeric aggregation uses `Nat`/`ℚ` exactly; Python floats appear only
  through `statistics`, whose mean/variance arithmetic is exact rational
  arithmetic here.
-/

namespace Confessional

/-! ## Python string primitives -/

/-- ASCII fragment of Python's `str.isspace` / the `\s` regex class:
space, tab, newline, carriage return, vertical tab, form feed. -/
def pyIsSpace (c : Char) : Bool :=
  c == ' ' || c == '\t' || c == '\n' || c == '\r' || c == '\x0b' || c == '\x0c'

/-- ASCII fragment of the regex `\w` class: alphanumerics and underscore. -/
def pyIsWordChar (c : Char) : Bool :=
  c.isAlphanum || c == '_'

/-- `bool(s.strip())` for a Python string: true iff some character is
not whitespace. -/
def hasNonSpace (l : List Char) : Bool :=
  l.any (fun c => !pyIsSpace c)

/-- Python `s.strip()`: drop leading and trailing whitespace. -/
def pyStrip (s : String) : String :=
  ⟨(((s.data.dropWhile pyIsSpace).reverse).dropWhile pyIsSpace).reverse⟩

/-- Python slicing `s[:n]`. -/
def pySlice (n : Nat) (s : String) : String :=
  ⟨s.data.take n⟩

/-- Python `s.lower()` (ASCII fragment). -/
def pyLower (s : String) : String :=
  ⟨s.data.map Char.toLower⟩

/-- Substring test on character lists: does `needle` occur contiguously
inside the list? (Python's `needle in hay`.) -/
def listContains (needle : List Char) : List Char → Bool
  | [] => needle.isEmpty
  | c :: t => needle.isPrefixOf (c :: t) || listContains needle t

/-- Python `sub in s`. -/
def pyContains (s sub : String) : Bool :=
  listContains sub.data s.data

/-- Helper for the non-overlapping occurrence count: scan the list one
character at a time; `skip` counts positions still covered by the last
match (a match at a position resumes the search `sub.length` characters
further on). -/
def pyCountAux (sub : List Char) : List Char → Nat → Nat
  | [], _ => 0
  | c :: t, skip =>
    if 0 < skip then pyCountAux sub t (skip - 1)
    else if !sub.isEmpty && sub.isPrefixOf (c :: t) then
      1 + pyCountAux sub t (sub.length - 1)
    else
      pyCountAux sub t 0

/-- Non-overlapping occurrence count on character lists
(Python `s.count(sub)` for non-empty `sub`). -/
def pyCountList (sub : List Char) (l : List Char) : Nat :=
  pyCountAux sub l 0

/-- Python `s.count(sub)` for non-empty `sub`. -/
def pyCount (s sub : String) : Nat :=
  pyCountList sub.data s.data

/-- `len(text.split())`: number of maximal runs of non-whitespace
characters.  The boolean argument records whether the previous character
was part of a word. -/
def wordCountAux : List Char → Bool → Nat
  | [], _ => 0
  | c :: t, inWord =>
    if pyIsSpace c then wordCountAux t false
    else (if inWord then 0 else 1) + wordCountAux t true

/-- `_word_count(text)` = `len(text.split())`. -/
def pyWordCount (s : String) : Nat :=
  wordCountAux s.data false

/-- `tool_input.get(key, "")` on a string-valued dictionary modelled as
an association list. -/
def lookupD (d : List (String × String)) (k : String) : String :=
  match d.find? (fun kv => kv.1 == k) with
  | some kv => kv.2
  | none => ""

/-- Python `str(d)` for a string-valued dictionary (quote-free keys and
values), used only by the fallback branch of `_summarize_tool_input`. -/
def pyStrDict (d : List (String × String)) : String :=
  "\x7b" ++ String.intercalate ", " (d.map (fun kv => "'" ++ kv.1 ++ "': '" ++ kv.2 ++ "'")) ++ "\x7d"

/-! ## Data model: log entries (`LogEntry` of the spec)

One JSONL record, at the granularity `parse_session` reads it. -/

/-- Usage counters of an assistant message; `none` models an absent key
(`usage.get(k, 0)` then contributes 0). -/
structure Usage where
  input_tokens : Option Nat
  output_tokens : Option Nat
  cache_read_input_tokens : Option Nat
  cache_creation_input_tokens : Option Nat
deriving DecidableEq, Repr, Inhabited

/-- The `content` field of a `tool_result` block: either a string or
some other JSON value, carried here together with its Python `str()`
rendering (only the rendering is ever used by the code). -/
inductive ToolResultContent where
  | str (s : String)
  | nonStr (rendered : String)
deriving DecidableEq, Repr, Inhabited

/-- One element of a structured (list-shaped) message content.
`otherDict` is a dict whose `type` tag is none of the recognised ones;
`rawStr` is a bare string element; `nonDict` is any other value. -/
inductive ContentItem where
  | text (t : String)
  | toolUse (name : String) (input : List (String × String))
  | toolResult (rc : ToolResultContent)
  | image
  | otherDict
  | rawStr (s : String)
  | nonDict
deriving DecidableEq, Repr, Inhabited

/-- A message `content` field: plain string, structured list, or any
other JSON value. -/
inductive MsgContent where
  | str (s : String)
  | items (l : List ContentItem)
  | other
deriving DecidableEq, Repr, Inhabited

/-- The `message` object of an entry.  An absent/falsy `model` or
`stop_reason` is modelled as `""` (the code only ever tests these for
truthiness or copies them). -/
structure Message where
  content : MsgContent
  model : String
  usage : Usage
  stop_reason : String
deriving DecidableEq, Repr, Inhabited

/-- One decoded JSONL entry.  `etype` is `entry.get("type")`; absent
string fields are `""`. -/
structure Entry where
  etype : String
  message : Message
  timestamp : String
  sessionId : String
  version : String
  gitBranch : String
deriving DecidableEq, Repr, Inhabited

/-! ## Data model: turn structures -/

/-- A `ToolCall` record as appended to a turn's `tools` list. -/
structure ToolCall where
  tool_name : String
  input_summary : String
  files_touched : String
  is_subagent : Bool
deriving DecidableEq, Repr, Inhabited

/-- A normalized content block as appended to a turn's `blocks` list.
`tool_name` is `none` for text blocks (Python `None`). -/
structure BlockRec where
  sequence : Nat
  btype : String
  content : String
  tool_name : Option String
deriving DecidableEq, Repr, Inhabited

/-- The `metrics` dict of a turn. -/
structure Metrics where
  model : String
  input_tokens : Nat
  output_tokens : Nat
  cache_read_tokens : Nat
  cache_creation_tokens : Nat
  stop_reason : String
deriving DecidableEq, Repr, Inhabited

/-- A reconstructed `Turn`. -/
structure Turn where
  prompt : String
  response : String
  tools : List ToolCall
  blocks : List BlockRec
  metrics : Metrics
  timestamp : String
  session_id : String
deriving DecidableEq, Repr, Inhabited

/-! ## `transcript_reader.py` — helper functions -/

/-- `_extract_user_prompt_text(content)` (lines 155–172): text of a user
message content, joining text parts with newlines, rendering images as
`"[image]"`, skipping tool results and non-dict non-string items. -/
def extractUserPromptText : MsgContent → String
  | .str s => s
  | .items l =>
    let parts := l.filterMap (fun b =>
      match b with
      | .text t => some t
      | .toolResult _ => none
      | .image => some "[image]"
      | .rawStr s => some s
      | _ => none)
    if parts.isEmpty then "" else String.intercalate "\n" parts
  | .other => ""

/-- `_is_real_user_prompt(entry)` (lines 175–186): a user entry is a
real prompt iff its content is a non-blank string, or a list containing
some element that is a string or a dict whose type is not
`tool_result`. -/
def isRealUserPrompt (e : Entry) : Bool :=
  match e.message.content with
  | .str s => hasNonSpace s.data
  | .items l =>
    l.any (fun b =>
      match b with
      | .toolResult _ => false
      | .nonDict => false
      | _ => true)
  | .other => false

/-- `_summarize_tool_input(tool_name, tool_input)` (lines 189–203). -/
def summarizeToolInput (tool_name : String) (tool_input : List (String × String)) : String :=
  if tool_name = "Bash" then pySlice 200 (lookupD tool_input "command")
  else if tool_name = "Read" ∨ tool_name = "Write" ∨ tool_name = "Edit" then
    lookupD tool_input "file_path"
  else if tool_name = "Grep" ∨ tool_name = "Glob" then
    "pattern=" ++ lookupD tool_input "pattern"
  else if tool_name = "WebSearch" then lookupD tool_input "query"
  else if tool_name = "WebFetch" then lookupD tool_input "url"
  else if tool_name = "Task" then pySlice 200 (lookupD tool_input "prompt")
  else pySlice 200 (pyStrDict tool_input)

/-- `_extract_files(tool_name, tool_input)` (lines 206–212). -/
def extractFiles (tool_name : String) (tool_input : List (String × String)) : String :=
  if tool_name = "Read" ∨ tool_name = "Write" ∨ tool_name = "Edit" then
    lookupD tool_input "file_path"
  else if tool_name = "Glob" ∨ tool_name = "Grep" then
    lookupD tool_input "path"
  else ""

/-! ## `parse_session` — per-turn accumulation (lines 258–345)

The per-turn mutable accumulators of the Python loop become one
explicit state threaded through a left fold over the turn's entry
slice. -/

/-- The per-turn accumulator variables of `parse_session`. -/
structure TurnState where
  response_texts : List String
  tools : List ToolCall
  blocks : List BlockRec
  seq : Nat
  last_tool_name : String
  total_input : Nat
  total_output : Nat
  total_cache_read : Nat
  total_cache_creation : Nat
  turn_model : String
  stop_reason : String
deriving DecidableEq, Repr, Inhabited

/-- Initial accumulator values (lines 258–270). -/
def initState : TurnState :=
  ⟨[], [], [], 0, "", 0, 0, 0, 0, "", ""⟩

/-- `blocks.append({...}); seq += 1` with the current sequence number. -/
def appendBlock (st : TurnState) (btype content : String) (tn : Option String) : TurnState :=
  { st with
    blocks := st.blocks ++ [⟨st.seq, btype, content, tn⟩],
    seq := st.seq + 1 }

/-- Processing of one content block of an assistant entry
(lines 298–327).  Non-dict blocks and dict blocks of unhandled types
are skipped. -/
def processAssistantItem (st : TurnState) (b : ContentItem) : TurnState :=
  match b with
  | .text t =>
    let text := pyStrip t
    if text ≠ "" then
      appendBlock { st with response_texts := st.response_texts ++ [text] } "text" text none
    else st
  | .toolUse name input =>
    appendBlock
      { st with
        last_tool_name := name,
        tools := st.tools ++
          [⟨name, summarizeToolInput name input, extractFiles name input, name = "Task"⟩] }
      "tool_use" (summarizeToolInput name input) (some name)
  | _ => st

/-- Processing of one content block of a mid-turn user entry
(lines 333–345): only `tool_result` dict blocks are handled; the result
content is sliced (after `str()` for non-strings) to 500 characters and
the block is tagged with the most recently seen tool name. -/
def processUserItem (st : TurnState) (b : ContentItem) : TurnState :=
  match b with
  | .toolResult rc =>
    let result_text :=
      match rc with
      | .str s => pySlice 500 s
      | .nonStr r => pySlice 500 r
    appendBlock st "tool_result" result_text (some st.last_tool_name)
  | _ => st

/-- Processing of one entry of the turn's slice (lines 272–345).
For assistant entries the model/usage/stop_reason updates happen even
when the content is not a list (the Python `continue` skips only the
block loop). -/
def processEntry (st : TurnState) (e : Entry) : TurnState :=
  if e.etype = "assistant" then
    let msg := e.message
    let st := if st.turn_model = "" ∧ msg.model ≠ "" then { st with turn_model := msg.model } else st
    let st :=
      { st with
        total_input := st.total_input + msg.usage.input_tokens.getD 0,
        total_output := st.total_output + msg.usage.output_tokens.getD 0,
        total_cache_read := st.total_cache_read + msg.usage.cache_read_input_tokens.getD 0,
        total_cache_creation := st.total_cache_creation + msg.usage.cache_creation_input_tokens.getD 0 }
    let st := if msg.stop_reason ≠ "" then { st with stop_reason := msg.stop_reason } else st
    match msg.content with
    | .items l => l.foldl processAssistantItem st
    | _ => st
  else if e.etype = "user" then
    match e.message.content with
    | .items l => l.foldl processUserItem st
    | _ => st
  else st

/-- The whole accumulation loop over a turn's entry slice. -/
def processSlice (slice : List Entry) : TurnState :=
  slice.foldl processEntry initState

/-- The final `response` value of a turn (lines 351–355): the text
parts joined by blank lines, or the synthesized tool-only placeholder
when no text was produced but tools were used. -/
def turnResponse (slice : List Entry) : String :=
  let st := processSlice slice
  let response := String.intercalate "\n\n" st.response_texts
  if response = "" ∧ st.tools ≠ [] then
    "[tool-only turn: " ++ String.intercalate ", " (st.tools.map (fun t => t.tool_name)) ++ "]"
  else response

/-- Turn construction from a slice (lines 351–375).  The Python code
checks `if not response and not tools: continue` after the tool-only
synthesis; since the synthesized response is non-empty whenever tools
exist, that is equivalent to dropping the turn when the joined text is
empty and no tools were collected. -/
def buildTurn (prompt_text timestamp session_id : String) (slice : List Entry) : Option Turn :=
  let st := processSlice slice
  if String.intercalate "\n\n" st.response_texts = "" ∧ st.tools = [] then none
  else some
    ⟨prompt_text, turnResponse slice, st.tools, st.blocks,
      ⟨st.turn_model, st.total_input, st.total_output, st.total_cache_read,
        st.total_cache_creation, st.stop_reason⟩,
      timestamp, session_id⟩

/-! ## `parse_session` — segmentation (lines 241–383) -/

/-- Indices of the turn-anchoring entries (lines 244–247). -/
def turnStartIdxs (entries : List Entry) : List Nat :=
  (List.range entries.length).filter (fun i =>
    decide ((entries.getD i default).etype = "user") && isRealUserPrompt (entries.getD i default))

/-- Each turn's `(start_idx, end_idx)` pair: the next start, or the log
length for the last turn (lines 249–250). -/
def turnRanges (entries : List Entry) : List (Nat × Nat) :=
  let starts := turnStartIdxs entries
  starts.zip (starts.drop 1 ++ [entries.length])

/-- `entry.get(field)`-style extraction of the first non-empty value of
a session metadata field (lines 231–239; the early `break` does not
change the result). -/
def firstNonEmpty (f : Entry → String) (entries : List Entry) : String :=
  match entries.find? (fun e => f e ≠ "") with
  | some e => f e
  | none => ""

/-- The `turns` list of `parse_session` (lines 249–375): one candidate
turn per anchoring prompt, spanning the entries up to the next anchor,
dropping turns with neither response nor tools.  Session-level metadata
other than `session_id` does not influence any turn field. -/
def parseSession (entries : List Entry) : List Turn :=
  (turnRanges entries).filterMap (fun r =>
    let user_entry := entries.getD r.1 default
    buildTurn (extractUserPromptText user_entry.message.content) user_entry.timestamp
      (firstNonEmpty (fun e => e.sessionId) entries)
      ((entries.drop (r.1 + 1)).take (r.2 - (r.1 + 1))))

/-! ## Linguistic analysis constants (lines 51–68) -/

/-- `HEDGING_PHRASES`. -/
def HEDGING_PHRASES : List String :=
  ["maybe", "perhaps", "i think", "not sure", "what if", "could we", "might"]

/-- `ASSERTIVE_PHRASES`. -/
def ASSERTIVE_PHRASES : List String :=
  ["must", "always", "definitely", "need to", "should", "have to", "make sure", "ensure"]

/-- `CORRECTION_MARKERS`. -/
def CORRECTION_MARKERS : List String :=
  ["no,", "actually", "instead", "not what i", "i meant", "that's wrong",
   "try again", "let me rephrase"]

/-- `SKILL_EXPANSION_MIN_WORDS`. -/
def SKILL_EXPANSION_MIN_WORDS : Nat := 100

/-! ## Skill-expansion detection (lines 60–63, 494–507) -/

/-- The trailing `\s*\n` of `SKILL_EXPANSION_PATTERN`: some (possibly
empty) run of whitespace characters followed by a newline.  Since `\n`
is itself in `\s`, backtracking reduces to: scanning whitespace from the
left, a `\n` appears before any non-whitespace character. -/
def spacesThenNewline : List Char → Bool
  | [] => false
  | c :: t => if c = '\n' then true else if pyIsSpace c then spacesThenNewline t else false

/-- Anchored match of `SKILL_EXPANSION_PATTERN = re.compile(r"^#\s+\w+\s*\n")`.
The character classes `\s` and `\w` are disjoint, so the greedy `+`
runs are exactly the maximal runs and no backtracking across class
boundaries can occur. -/
def skillExpansionMatch : List Char → Bool
  | [] => false
  | c :: rest =>
    if c = '#' then
      let sp := rest.takeWhile pyIsSpace
      let r1 := rest.dropWhile pyIsSpace
      if sp.isEmpty then false
      else
        let wd := r1.takeWhile pyIsWordChar
        let r2 := r1.dropWhile pyIsWordChar
        if wd.isEmpty then false else spacesThenNewline r2
    else false

/-- `_is_skill_expansion(prompt)` (lines 494–507). -/
def isSkillExpansion (prompt : String) : Bool :=
  if !hasNonSpace prompt.data then false
  else skillExpansionMatch prompt.data && decide (SKILL_EXPANSION_MIN_WORDS ≤ pyWordCount prompt)

/-! ## `compute_prompt_linguistics` — the components the claims touch -/

/-- The prompt filter of `compute_prompt_linguistics` (lines 522–523):
non-blank prompts that are not skill expansions. -/
def filteredPrompts (turns : List Turn) : List String :=
  (turns.map (fun t => t.prompt)).filter (fun p => hasNonSpace p.data && !isSkillExpansion p)

/-- `word_counts = [_word_count(p) for p in prompts]` (line 566). -/
def filteredWordCounts (turns : List Turn) : List Nat :=
  (filteredPrompts turns).map pyWordCount

/-- Exact arithmetic mean of a list of rationals (`statistics.mean`). -/
def meanQ (l : List ℚ) : ℚ :=
  l.sum / l.length

/-- Sum of squared deviations from the mean (the `_ss` computed inside
Python's `statistics.stdev`/`pstdev`). -/
def sumSqDev (l : List ℚ) : ℚ :=
  (l.map (fun x => (x - meanQ l) ^ 2)).sum

/-- Exact value of `statistics.stdev(l) ** 2`: the Bessel-corrected
sample variance, sum of squared deviations over `n - 1`. -/
def sampleVarQ (l : List ℚ) : ℚ :=
  sumSqDev l / ((l.length : ℚ) - 1)

/-- The word counts of the filtered prompts, as rationals. -/
def wcsQ (turns : List Turn) : List ℚ :=
  (filteredWordCounts turns).map (fun n => (n : ℚ))

/-- The square of the `prompt_length.stddev` value computed at line 569:
`statistics.stdev(word_counts) if len(word_counts) >= 2 else 0.0`.
The code's stddev is the (irrational) square root of this exact
rational, so we embed the square; `Real.sqrt` of it appears only in
theorem statements. -/
def promptLengthStddevSq (turns : List Turn) : ℚ :=
  let l := wcsQ turns
  if 2 ≤ l.length then sampleVarQ l else 0

/-- Modelled from the spec: the square of the *population* standard
deviation of the per-prompt word counts (`statistics.pstdev`: sum of
squared deviations over `n`), the quantity the spec's
"population-stddev" wording describes; 0 when there are no prompts.
This is the claim-side definition to be compared with
`promptLengthStddevSq`, which embeds the source. -/
def specPopStddevSq (turns : List Turn) : ℚ :=
  let l := wcsQ turns
  if l.length = 0 then 0 else sumSqDev l / (l.length : ℚ)

/-- Per-phrase totals across all prompts: entry `ph` holds
`sum over prompts of prompt.lower().count(ph)` — the accumulated
`hedging_totals` / `assertive_totals` dictionaries of lines 584–590. -/
def phraseTotals (prompts : List String) (phrases : List String) : List (String × Nat) :=
  phrases.map (fun ph => (ph, (prompts.map (fun p => pyCount (pyLower p) ph)).sum))

/-- The `certainty_markers` sub-structure of the linguistics result. -/
structure CertaintyMarkers where
  hedging_count : Nat
  assertive_count : Nat
  ratio : Option ℚ
  hedging_phrases : List (String × Nat)
  assertive_phrases : List (String × Nat)
deriving DecidableEq, Repr

/-- The `certainty_markers` computation (lines 584–593, 626–632):
`ratio` is `assertive_count / hedging_count` when `hedging_count > 0`
and `None` otherwise. -/
def computeCertaintyMarkers (prompts : List String) : CertaintyMarkers :=
  let hedging_totals := phraseTotals prompts HEDGING_PHRASES
  let assertive_totals := phraseTotals prompts ASSERTIVE_PHRASES
  let hedging_count := (hedging_totals.map (fun kv => kv.2)).sum
  let assertive_count := (assertive_totals.map (fun kv => kv.2)).sum
  ⟨hedging_count, assertive_count,
    if 0 < hedging_count then some ((assertive_count : ℚ) / (hedging_count : ℚ)) else none,
    hedging_totals, assertive_totals⟩

/-- `certainty_markers` as computed inside `compute_prompt_linguistics`
for a turn collection (filtering applied at lines 522–523). -/
def certaintyMarkersOfTurns (turns : List Turn) : CertaintyMarkers :=
  computeCertaintyMarkers (filteredPrompts turns)

/-! ## `compute_effectiveness_signals` (lines 677–787) -/

/-- `_is_correction(prompt)` (lines 658–661): the lowered prompt
contains one of the correction markers as a substring. -/
def isCorrection (prompt : String) : Bool :=
  CORRECTION_MARKERS.any (fun m => pyContains (pyLower prompt) m)

/-- The fields of the effectiveness result that the claims are about.
The per-style, tool-scatter and session-progression fields of the
Python dict are derived from the same `pairs` list and are not
referenced by any claim. -/
structure EffSignals where
  correction_rate : ℚ
  corrections_total : Nat
  eligible_turns : Nat
  first_response_acceptance : ℚ
deriving DecidableEq, Repr

/-- The all-zero result with optimistic acceptance (lines 688–706). -/
def emptyEffSignals : EffSignals :=
  ⟨0, 0, 0, 1⟩

/-- `compute_effectiveness_signals(turns)` (lines 677–787), restricted
to the claimed fields.  The index loop
`for i in range(len(turns) - 1): ... turns[i], turns[i+1]` is modelled
by zipping the filtered list with its tail; each pair records the
earlier turn and whether the later turn's prompt is a correction. -/
def effSignals (turns0 : List Turn) : EffSignals :=
  let turns := turns0.filter (fun t => !isSkillExpansion t.prompt)
  if turns.length < 2 then emptyEffSignals
  else
    let pairs := (turns.zip turns.tail).filterMap (fun ab =>
      if ab.1.session_id = ab.2.session_id then some (ab.1, isCorrection ab.2.prompt) else none)
    if pairs.isEmpty then emptyEffSignals
    else
      let eligible := pairs.length
      let corrections_total := (pairs.filter (fun p => p.2)).length
      let correction_rate := (corrections_total : ℚ) / (eligible : ℚ)
      ⟨correction_rate, corrections_total, eligible, 1 - correction_rate⟩

/-! ## Pure per-entry characterizations

State-free descriptions of what the accumulation loop appends for each
entry, used to state the ordering / aggregation claims.  Each follows
the same case analysis as the corresponding processing function. -/

/-- The state-independent part of a block record: its type and content. -/
def blockCore (b : BlockRec) : String × String :=
  (b.btype, b.content)

/-- Blocks contributed by one assistant content item, as
(type, content) pairs. -/
def itemCoreA (b : ContentItem) : List (String × String) :=
  match b with
  | .text t => if pyStrip t ≠ "" then [("text", pyStrip t)] else []
  | .toolUse name input => [("tool_use", summarizeToolInput name input)]
  | _ => []

/-- Blocks contributed by one mid-turn user content item, as
(type, content) pairs. -/
def itemCoreU (b : ContentItem) : List (String × String) :=
  match b with
  | .toolResult (.str s) => [("tool_result", pySlice 500 s)]
  | .toolResult (.nonStr r) => [("tool_result", pySlice 500 r)]
  | _ => []

/-- Response texts contributed by one assistant content item. -/
def itemTextsA (b : ContentItem) : List String :=
  match b with
  | .text t => if pyStrip t ≠ "" then [pyStrip t] else []
  | _ => []

/-- Tool calls contributed by one assistant content item. -/
def itemToolsA (b : ContentItem) : List ToolCall :=
  match b with
  | .toolUse name input =>
    [⟨name, summarizeToolInput name input, extractFiles name input, name = "Task"⟩]
  | _ => []

/-- (type, content) pairs of the blocks contributed by one entry of a
turn's slice, in encounter order. -/
def entryBlockCore (e : Entry) : List (String × String) :=
  if e.etype = "assistant" then
    match e.message.content with
    | .items l => l.flatMap itemCoreA
    | _ => []
  else if e.etype = "user" then
    match e.message.content with
    | .items l => l.flatMap itemCoreU
    | _ => []
  else []

/-- The non-empty stripped assistant text blocks contributed by one
entry, in order. -/
def entryTexts (e : Entry) : List String :=
  if e.etype = "assistant" then
    match e.message.content with
    | .items l => l.flatMap itemTextsA
    | _ => []
  else []

/-- The tool calls contributed by one entry, in order. -/
def entryTools (e : Entry) : List ToolCall :=
  if e.etype = "assistant" then
    match e.message.content with
    | .items l => l.flatMap itemToolsA
    | _ => []
  else []

/-- Sum of one usage counter over the assistant entries of a slice,
missing counters contributing 0 — the quantity the spec says each
aggregated metric equals. -/
def assistantUsageSum (f : Usage → Option Nat) (slice : List Entry) : Nat :=
  ((slice.filter (fun e => decide (e.etype = "assistant"))).map
    (fun e => (f e.message.usage).getD 0)).sum

/-- The model of the first assistant entry of the slice that reports a
non-empty model, or `""`. -/
def firstAssistantModel (slice : List Entry) : String :=
  match slice.find? (fun e => decide (e.etype = "assistant") && decide (e.message.model ≠ "")) with
  | some e => e.message.model
  | none => ""

/-- The stop_reason of the last assistant entry of the slice that
reports a non-empty stop_reason, or `""`. -/
def lastReportedStop : List Entry → String
  | [] => ""
  | e :: rest =>
    let r := lastReportedStop rest
    if r = "" then
      if e.etype = "assistant" ∧ e.message.stop_reason ≠ "" then e.message.stop_reason else ""
    else r

/-! ## Accumulator lemmas: item level

What each content-item step does to each accumulator field. -/

/-- Shorthand for the (type, content) projection of a block list. -/
def mapCore (l : List BlockRec) : List (String × String) :=
  l.map blockCore

lemma pai_input (st : TurnState) (b : ContentItem) :
    (processAssistantItem st b).total_input = st.total_input := by
  cases b <;> dsimp only [processAssistantItem] <;> (try split) <;> rfl

lemma pai_output (st : TurnState) (b : ContentItem) :
    (processAssistantItem st b).total_output = st.total_output := by
  cases b <;> dsimp only [processAssistantItem] <;> (try split) <;> rfl

lemma pai_cread (st : TurnState) (b : ContentItem) :
    (processAssistantItem st b).total_cache_read = st.total_cache_read := by
  cases b <;> dsimp only [processAssistantItem] <;> (try split) <;> rfl

lemma pai_ccreate (st : TurnState) (b : ContentItem) :
    (processAssistantItem st b).total_cache_creation = st.total_cache_creation := by
  cases b <;> dsimp only [processAssistantItem] <;> (try split) <;> rfl

lemma pai_model (st : TurnState) (b : ContentItem) :
    (processAssistantItem st b).turn_model = st.turn_model := by
  cases b <;> dsimp only [processAssistantItem] <;> (try split) <;> rfl

lemma pai_stop (st : TurnState) (b : ContentItem) :
    (processAssistantItem st b).stop_reason = st.stop_reason := by
  cases b <;> dsimp only [processAssistantItem] <;> (try split) <;> rfl

lemma pai_texts (st : TurnState) (b : ContentItem) :
    (processAssistantItem st b).response_texts = st.response_texts ++ itemTextsA b := by
  cases b <;> dsimp only [processAssistantItem, itemTextsA] <;> (try split_ifs) <;>
    simp [appendBlock]

lemma pai_tools (st : TurnState) (b : ContentItem) :
    (processAssistantItem st b).tools = st.tools ++ itemToolsA b := by
  cases b <;> dsimp only [processAssistantItem, itemToolsA] <;> (try split_ifs) <;>
    simp [appendBlock]

lemma pai_blocks_core (st : TurnState) (b : ContentItem) :
    mapCore (processAssistantItem st b).blocks = mapCore st.blocks ++ itemCoreA b := by
  cases b <;> dsimp only [processAssistantItem, itemCoreA] <;> (try split_ifs) <;>
    simp [appendBlock, mapCore, blockCore]

lemma pui_input (st : TurnState) (b : ContentItem) :
    (processUserItem st b).total_input = st.total_input := by
  cases b <;> (try rename_i rc; cases rc) <;> rfl

lemma pui_output (st : TurnState) (b : ContentItem) :
    (processUserItem st b).total_output = st.total_output := by
  cases b <;> (try rename_i rc; cases rc) <;> rfl

lemma pui_cread (st : TurnState) (b : ContentItem) :
    (processUserItem st b).total_cache_read = st.total_cache_read := by
  cases b <;> (try rename_i rc; cases rc) <;> rfl

lemma pui_ccreate (st : TurnState) (b : ContentItem) :
    (processUserItem st b).total_cache_creation = st.total_cache_creation := by
  cases b <;> (try rename_i rc; cases rc) <;> rfl

lemma pui_model (st : TurnState) (b : ContentItem) :
    (processUserItem st b).turn_model = st.turn_model := by
  cases b <;> (try rename_i rc; cases rc) <;> rfl

lemma pui_stop (st : TurnState) (b : ContentItem) :
    (processUserItem st b).stop_reason = st.stop_reason := by
  cases b <;> (try rename_i rc; cases rc) <;> rfl

lemma pui_last (st : TurnState) (b : ContentItem) :
    (processUserItem st b).last_tool_name = st.last_tool_name := by
  cases b <;> (try rename_i rc; cases rc) <;> rfl

lemma pui_texts (st : TurnState) (b : ContentItem) :
    (processUserItem st b).response_texts = st.response_texts := by
  cases b <;> (try rename_i rc; cases rc) <;> rfl

lemma pui_tools (st : TurnState) (b : ContentItem) :
    (processUserItem st b).tools = st.tools := by
  cases b <;> (try rename_i rc; cases rc) <;> rfl

lemma pui_blocks_core (st : TurnState) (b : ContentItem) :
    mapCore (processUserItem st b).blocks = mapCore st.blocks ++ itemCoreU b := by
  cases b <;> (try rename_i rc; cases rc) <;>
    simp [processUserItem, itemCoreU, appendBlock, mapCore, blockCore]

/-! ## Accumulator lemmas: content-list folds -/

lemma fpai_input (l : List ContentItem) (st : TurnState) :
    (l.foldl processAssistantItem st).total_input = st.total_input := by
  induction l generalizing st with
  | nil => rfl
  | cons b t ih => simp only [List.foldl_cons, ih, pai_input]

lemma fpai_output (l : List ContentItem) (st : TurnState) :
    (l.foldl processAssistantItem st).total_output = st.total_output := by
  induction l generalizing st with
  | nil => rfl
  | cons b t ih => simp only [List.foldl_cons, ih, pai_output]

lemma fpai_cread (l : List ContentItem) (st : TurnState) :
    (l.foldl processAssistantItem st).total_cache_read = st.total_cache_read := by
  induction l generalizing st with
  | nil => rfl
  | cons b t ih => simp only [List.foldl_cons, ih, pai_cread]

lemma fpai_ccreate (l : List ContentItem) (st : TurnState) :
    (l.foldl processAssistantItem st).total_cache_creation = st.total_cache_creation := by
  induction l generalizing st with
  | nil => rfl
  | cons b t ih => simp only [List.foldl_cons, ih, pai_ccreate]

lemma fpai_model (l : List ContentItem) (st : TurnState) :
    (l.foldl processAssistantItem st).turn_model = st.turn_model := by
  induction l generalizing st with
  | nil => rfl
  | cons b t ih => simp only [List.foldl_cons, ih, pai_model]

lemma fpai_stop (l : List ContentItem) (st : TurnState) :
    (l.foldl processAssistantItem st).stop_reason = st.stop_reason := by
  induction l generalizing st with
  | nil => rfl
  | cons b t ih => simp only [List.foldl_cons, ih, pai_stop]

lemma fpai_texts (l : List ContentItem) (st : TurnState) :
    (l.foldl processAssistantItem st).response_texts =
      st.response_texts ++ l.flatMap itemTextsA := by
  induction l generalizing st with
  | nil => simp
  | cons b t ih => simp [List.foldl_cons, ih, pai_texts]

lemma fpai_tools (l : List ContentItem) (st : TurnState) :
    (l.foldl processAssistantItem st).tools = st.tools ++ l.flatMap itemToolsA := by
  induction l generalizing st with
  | nil => simp
  | cons b t ih => simp [List.foldl_cons, ih, pai_tools]

lemma fpai_blocks_core (l : List ContentItem) (st : TurnState) :
    mapCore (l.foldl processAssistantItem st).blocks =
      mapCore st.blocks ++ l.flatMap itemCoreA := by
  induction l generalizing st with
  | nil => simp
  | cons b t ih => simp [List.foldl_cons, ih, pai_blocks_core]

lemma fpui_input (l : List ContentItem) (st : TurnState) :
    (l.foldl processUserItem st).total_input = st.total_input := by
  induction l generalizing st with
  | nil => rfl
  | cons b t ih => simp only [List.foldl_cons, ih, pui_input]

lemma fpui_output (l : List ContentItem) (st : TurnState) :
    (l.foldl processUserItem st).total_output = st.total_output := by
  induction l generalizing st with
  | nil => rfl
  | cons b t ih => simp only [List.foldl_cons, ih, pui_output]

lemma fpui_cread (l : List ContentItem) (st : TurnState) :
    (l.foldl processUserItem st).total_cache_read = st.total_cache_read := by
  induction l generalizing st with
  | nil => rfl
  | cons b t ih => simp only [List.foldl_cons, ih, pui_cread]

lemma fpui_ccreate (l : List ContentItem) (st : TurnState) :
    (l.foldl processUserItem st).total_cache_creation = st.total_cache_creation := by
  induction l generalizing st with
  | nil => rfl
  | cons b t ih => simp only [List.foldl_cons, ih, pui_ccreate]

lemma fpui_model (l : List ContentItem) (st : TurnState) :
    (l.foldl processUserItem st).turn_model = st.turn_model := by
  induction l generalizing st with
  | nil => rfl
  | cons b t ih => simp only [List.foldl_cons, ih, pui_model]

lemma fpui_stop (l : List ContentItem) (st : TurnState) :
    (l.foldl processUserItem st).stop_reason = st.stop_reason := by
  induction l generalizing st with
  | nil => rfl
  | cons b t ih => simp only [List.foldl_cons, ih, pui_stop]

lemma fpui_texts (l : List ContentItem) (st : TurnState) :
    (l.foldl processUserItem st).response_texts = st.response_texts := by
  induction l generalizing st with
  | nil => rfl
  | cons b t ih => simp only [List.foldl_cons, ih, pui_texts]

lemma fpui_tools (l : List ContentItem) (st : TurnState) :
    (l.foldl processUserItem st).tools = st.tools := by
  induction l generalizing st with
  | nil => rfl
  | cons b t ih => simp only [List.foldl_cons, ih, pui_tools]

lemma fpui_blocks_core (l : List ContentItem) (st : TurnState) :
    mapCore (l.foldl processUserItem st).blocks = mapCore st.blocks ++ l.flatMap itemCoreU := by
  induction l generalizing st with
  | nil => simp
  | cons b t ih => simp [List.foldl_cons, ih, pui_blocks_core]

/-! ## Accumulator lemmas: entry level -/

lemma pe_input (st : TurnState) (e : Entry) :
    (processEntry st e).total_input =
      st.total_input + (if e.etype = "assistant" then e.message.usage.input_tokens.getD 0 else 0) := by
  unfold processEntry
  dsimp only
  rcases hc : e.message.content with s | l | _ <;> dsimp only <;> split_ifs <;>
    (try simp only [fpai_input, fpui_input]) <;> (first | rfl | simp)

lemma pe_output (st : TurnState) (e : Entry) :
    (processEntry st e).total_output =
      st.total_output + (if e.etype = "assistant" then e.message.usage.output_tokens.getD 0 else 0) := by
  unfold processEntry
  dsimp only
  rcases hc : e.message.content with s | l | _ <;> dsimp only <;> split_ifs <;>
    (try simp only [fpai_output, fpui_output]) <;> (first | rfl | simp)

lemma pe_cread (st : TurnState) (e : Entry) :
    (processEntry st e).total_cache_read =
      st.total_cache_read +
        (if e.etype = "assistant" then e.message.usage.cache_read_input_tokens.getD 0 else 0) := by
  unfold processEntry
  dsimp only
  rcases hc : e.message.content with s | l | _ <;> dsimp only <;> split_ifs <;>
    (try simp only [fpai_cread, fpui_cread]) <;> (first | rfl | simp)

lemma pe_ccreate (st : TurnState) (e : Entry) :
    (processEntry st e).total_cache_creation =
      st.total_cache_creation +
        (if e.etype = "assistant" then e.message.usage.cache_creation_input_tokens.getD 0 else 0) := by
  unfold processEntry
  dsimp only
  rcases hc : e.message.content with s | l | _ <;> dsimp only <;> split_ifs <;>
    (try simp only [fpai_ccreate, fpui_ccreate]) <;> (first | rfl | simp)

lemma pe_model (st : TurnState) (e : Entry) :
    (processEntry st e).turn_model =
      if st.turn_model = "" ∧ e.etype = "assistant" ∧ e.message.model ≠ "" then e.message.model
      else st.turn_model := by
  unfold processEntry
  dsimp only
  rcases hc : e.message.content with s | l | _ <;> dsimp only <;> split_ifs <;>
    (try simp only [fpai_model, fpui_model]) <;> (first | rfl | simp_all)

lemma pe_stop (st : TurnState) (e : Entry) :
    (processEntry st e).stop_reason =
      if e.etype = "assistant" ∧ e.message.stop_reason ≠ "" then e.message.stop_reason
      else st.stop_reason := by
  unfold processEntry
  dsimp only
  rcases hc : e.message.content with s | l | _ <;> dsimp only <;> split_ifs <;>
    (try simp only [fpai_stop, fpui_stop]) <;> (first | rfl | simp_all)

lemma pe_texts (st : TurnState) (e : Entry) :
    (processEntry st e).response_texts = st.response_texts ++ entryTexts e := by
  unfold processEntry entryTexts
  dsimp only
  rcases hc : e.message.content with s | l | _ <;> dsimp only <;> split_ifs <;>
    (try simp only [fpai_texts, fpui_texts]) <;> (first | rfl | simp)

lemma pe_tools (st : TurnState) (e : Entry) :
    (processEntry st e).tools = st.tools ++ entryTools e := by
  unfold processEntry entryTools
  dsimp only
  rcases hc : e.message.content with s | l | _ <;> dsimp only <;> split_ifs <;>
    (try simp only [fpai_tools, fpui_tools]) <;> (first | rfl | simp)

lemma pe_blocks_core (st : TurnState) (e : Entry) :
    mapCore (processEntry st e).blocks = mapCore st.blocks ++ entryBlockCore e := by
  unfold processEntry entryBlockCore
  dsimp only
  rcases hc : e.message.content with s | l | _ <;> dsimp only <;> split_ifs <;>
    (try simp only [fpai_blocks_core, fpui_blocks_core]) <;> (first | rfl | simp)

/-! ## Accumulator lemmas: slice level -/

lemma fe_input (slice : List Entry) (st : TurnState) :
    (slice.foldl processEntry st).total_input =
      st.total_input + assistantUsageSum Usage.input_tokens slice := by
  induction slice generalizing st with
  | nil => simp [assistantUsageSum]
  | cons e rest ih =>
    simp only [List.foldl_cons, ih, pe_input, assistantUsageSum, List.filter_cons]
    by_cases h : e.etype = "assistant" <;> simp [h] <;> omega

lemma fe_output (slice : List Entry) (st : TurnState) :
    (slice.foldl processEntry st).total_output =
      st.total_output + assistantUsageSum Usage.output_tokens slice := by
  induction slice generalizing st with
  | nil => simp [assistantUsageSum]
  | cons e rest ih =>
    simp only [List.foldl_cons, ih, pe_output, assistantUsageSum, List.filter_cons]
    by_cases h : e.etype = "assistant" <;> simp [h] <;> omega

lemma fe_cread (slice : List Entry) (st : TurnState) :
    (slice.foldl processEntry st).total_cache_read =
      st.total_cache_read + assistantUsageSum Usage.cache_read_input_tokens slice := by
  induction slice generalizing st with
  | nil => simp [assistantUsageSum]
  | cons e rest ih =>
    simp only [List.foldl_cons, ih, pe_cread, assistantUsageSum, List.filter_cons]
    by_cases h : e.etype = "assistant" <;> simp [h] <;> omega

lemma fe_ccreate (slice : List Entry) (st : TurnState) :
    (slice.foldl processEntry st).total_cache_creation =
      st.total_cache_creation + assistantUsageSum Usage.cache_creation_input_tokens slice := by
  induction slice generalizing st with
  | nil => simp [assistantUsageSum]
  | cons e rest ih =>
    simp only [List.foldl_cons, ih, pe_ccreate, assistantUsageSum, List.filter_cons]
    by_cases h : e.etype = "assistant" <;> simp [h] <;> omega

lemma fe_model (slice : List Entry) (st : TurnState) :
    (slice.foldl processEntry st).turn_model =
      if st.turn_model = "" then firstAssistantModel slice else st.turn_model := by
  induction slice generalizing st with
  | nil =>
    simp only [List.foldl_nil, firstAssistantModel, List.find?_nil]
    split_ifs with h
    · exact h
    · rfl
  | cons e rest ih =>
    simp only [List.foldl_cons, ih, pe_model, firstAssistantModel]
    by_cases h1 : st.turn_model = "" <;>
      by_cases h2 : e.etype = "assistant" <;>
      by_cases h3 : e.message.model = "" <;>
      simp [h1, h2, h3, List.find?_cons, firstAssistantModel]

lemma fe_stop (slice : List Entry) (st : TurnState) :
    (slice.foldl processEntry st).stop_reason =
      if lastReportedStop slice = "" then st.stop_reason else lastReportedStop slice := by
  induction slice generalizing st with
  | nil => simp [lastReportedStop]
  | cons e rest ih =>
    simp only [List.foldl_cons, ih, pe_stop, lastReportedStop]
    by_cases h1 : lastReportedStop rest = "" <;>
      by_cases h2 : e.etype = "assistant" ∧ e.message.stop_reason ≠ "" <;>
      simp [h1, h2]

lemma fe_texts (slice : List Entry) (st : TurnState) :
    (slice.foldl processEntry st).response_texts =
      st.response_texts ++ slice.flatMap entryTexts := by
  induction slice generalizing st with
  | nil => simp
  | cons e rest ih => simp [List.foldl_cons, ih, pe_texts]

lemma fe_tools (slice : List Entry) (st : TurnState) :
    (slice.foldl processEntry st).tools = st.tools ++ slice.flatMap entryTools := by
  induction slice generalizing st with
  | nil => simp
  | cons e rest ih => simp [List.foldl_cons, ih, pe_tools]

lemma fe_blocks_core (slice : List Entry) (st : TurnState) :
    mapCore (slice.foldl processEntry st).blocks =
      mapCore st.blocks ++ slice.flatMap entryBlockCore := by
  induction slice generalizing st with
  | nil => simp
  | cons e rest ih => simp [List.foldl_cons, ih, pe_blocks_core]

/-! ## `processSlice` corollaries -/

lemma processSlice_input (slice : List Entry) :
    (processSlice slice).total_input = assistantUsageSum Usage.input_tokens slice := by
  simpa [processSlice, initState] using fe_input slice initState

lemma processSlice_output (slice : List Entry) :
    (processSlice slice).total_output = assistantUsageSum Usage.output_tokens slice := by
  simpa [processSlice, initState] using fe_output slice initState

lemma processSlice_cread (slice : List Entry) :
    (processSlice slice).total_cache_read =
      assistantUsageSum Usage.cache_read_input_tokens slice := by
  simpa [processSlice, initState] using fe_cread slice initState

lemma processSlice_ccreate (slice : List Entry) :
    (processSlice slice).total_cache_creation =
      assistantUsageSum Usage.cache_creation_input_tokens slice := by
  simpa [processSlice, initState] using fe_ccreate slice initState

lemma processSlice_model (slice : List Entry) :
    (processSlice slice).turn_model = firstAssistantModel slice := by
  simpa [processSlice, initState] using fe_model slice initState

lemma processSlice_stop (slice : List Entry) :
    (processSlice slice).stop_reason = lastReportedStop slice := by
  have h := fe_stop slice initState
  simp only [processSlice, initState] at h ⊢
  rw [h]
  split_ifs with hl
  · exact hl.symm
  · rfl

lemma processSlice_texts (slice : List Entry) :
    (processSlice slice).response_texts = slice.flatMap entryTexts := by
  simpa [processSlice, initState] using fe_texts slice initState

lemma processSlice_tools (slice : List Entry) :
    (processSlice slice).tools = slice.flatMap entryTools := by
  simpa [processSlice, initState] using fe_tools slice initState

lemma processSlice_blocks_core (slice : List Entry) :
    mapCore (processSlice slice).blocks = slice.flatMap entryBlockCore := by
  simpa [processSlice, initState, mapCore] using fe_blocks_core slice initState

/-! ## The sequence-number invariant -/

/-- The accumulator's sequence counter equals the number of blocks, and
the recorded sequence numbers are `0, 1, 2, …` in order. -/
def SeqOK (st : TurnState) : Prop :=
  st.seq = st.blocks.length ∧
    st.blocks.map (fun b => b.sequence) = List.range st.blocks.length

lemma seqOK_init : SeqOK initState := by
  constructor <;> rfl

lemma seqOK_append {st : TurnState} (h : SeqOK st) (bt c : String) (tn : Option String) :
    SeqOK (appendBlock st bt c tn) := by
  obtain ⟨h1, h2⟩ := h
  constructor
  · simp [appendBlock, h1]
  · simp [appendBlock, h1, h2, List.range_succ]

lemma seqOK_pai {st : TurnState} (b : ContentItem) (h : SeqOK st) :
    SeqOK (processAssistantItem st b) := by
  cases b <;> dsimp only [processAssistantItem] <;> (try split_ifs) <;>
    (first
      | exact h
      | exact seqOK_append h _ _ _)

lemma seqOK_pui {st : TurnState} (b : ContentItem) (h : SeqOK st) :
    SeqOK (processUserItem st b) := by
  cases b <;> (try rename_i rc; cases rc) <;>
    (first
      | exact h
      | exact seqOK_append h _ _ _)

lemma seqOK_fpai {st : TurnState} (l : List ContentItem) (h : SeqOK st) :
    SeqOK (l.foldl processAssistantItem st) := by
  induction l generalizing st with
  | nil => exact h
  | cons b t ih => exact ih (seqOK_pai b h)

lemma seqOK_fpui {st : TurnState} (l : List ContentItem) (h : SeqOK st) :
    SeqOK (l.foldl processUserItem st) := by
  induction l generalizing st with
  | nil => exact h
  | cons b t ih => exact ih (seqOK_pui b h)

lemma seqOK_pe {st : TurnState} (e : Entry) (h : SeqOK st) :
    SeqOK (processEntry st e) := by
  unfold processEntry
  dsimp only
  rcases hc : e.message.content with s | l | _ <;> dsimp only <;> split_ifs <;>
    (first
      | exact h
      | exact seqOK_fpai _ h
      | exact seqOK_fpui _ h)

lemma seqOK_processSlice (slice : List Entry) : SeqOK (processSlice slice) := by
  have main : ∀ (sl : List Entry) (st : TurnState), SeqOK st → SeqOK (sl.foldl processEntry st) := by
    intro sl
    induction sl with
    | nil => intro st h; exact h
    | cons e rest ih => intro st h; exact ih _ (seqOK_pe e h)
  exact main slice initState seqOK_init

/-! ## The tool-result tagging and length invariants -/

/-- Every `tool_result` block carries at most 500 characters of
content. -/
def ResultLenOK (st : TurnState) : Prop :=
  ∀ b ∈ st.blocks, b.btype = "tool_result" → b.content.length ≤ 500

/-- A `tool_result` block preceded by no `tool_use` block is tagged
with the empty tool name, and the running `last_tool_name` is empty
while no `tool_use` block has been recorded. -/
def ResultTagOK (st : TurnState) : Prop :=
  ((∀ b ∈ st.blocks, b.btype ≠ "tool_use") → st.last_tool_name = "") ∧
  ∀ k (hk : k < st.blocks.length), (st.blocks.get ⟨k, hk⟩).btype = "tool_result" →
    (∀ b ∈ st.blocks.take k, b.btype ≠ "tool_use") →
    (st.blocks.get ⟨k, hk⟩).tool_name = some ""

lemma pySlice_length_le (n : Nat) (s : String) : (pySlice n s).length ≤ n := by
  show (s.data.take n).length ≤ n
  simp [List.length_take]

lemma resultLenOK_init : ResultLenOK initState := by
  intro b hb
  simp [initState] at hb

lemma resultTagOK_init : ResultTagOK initState := by
  constructor
  · intro _; rfl
  · intro k hk
    simp [initState] at hk

/-- Appending a block to a list preserves the positional tagging
property, provided the new block satisfies it relative to the whole old
list. -/
lemma resultTag_snoc (bs : List BlockRec) (nb : BlockRec)
    (h2 : ∀ k (hk : k < bs.length), (bs.get ⟨k, hk⟩).btype = "tool_result" →
      (∀ b ∈ bs.take k, b.btype ≠ "tool_use") → (bs.get ⟨k, hk⟩).tool_name = some "")
    (hnb : nb.btype = "tool_result" → (∀ b ∈ bs, b.btype ≠ "tool_use") →
      nb.tool_name = some "") :
    ∀ k (hk : k < (bs ++ [nb]).length), ((bs ++ [nb]).get ⟨k, hk⟩).btype = "tool_result" →
      (∀ b ∈ (bs ++ [nb]).take k, b.btype ≠ "tool_use") →
      ((bs ++ [nb]).get ⟨k, hk⟩).tool_name = some "" := by
  intro k hk
  have hk' : k < bs.length + 1 := by simpa using hk
  rcases Nat.lt_or_ge k bs.length with hlt | hge
  · have hget : (bs ++ [nb]).get ⟨k, hk⟩ = bs.get ⟨k, hlt⟩ := by
      simp [List.get_eq_getElem, List.getElem_append_left hlt]
    have htake : (bs ++ [nb]).take k = bs.take k := by
      rw [List.take_append_eq_append_take]
      have : k - bs.length = 0 := by omega
      simp [this]
    rw [hget, htake]
    exact h2 k hlt
  · have hke : k = bs.length := by omega
    subst hke
    have hget : (bs ++ [nb]).get ⟨bs.length, hk⟩ = nb := by
      simp [List.get_eq_getElem, List.getElem_append_right (Nat.le_refl bs.length)]
    have htake : (bs ++ [nb]).take bs.length = bs := by
      rw [List.take_append_eq_append_take]
      simp
    rw [hget, htake]
    exact hnb

lemma resultTag_pai {st : TurnState} (b : ContentItem) (h : ResultTagOK st) :
    ResultTagOK (processAssistantItem st b) := by
  obtain ⟨h1, h2⟩ := h
  cases b with
  | text t =>
    dsimp only [processAssistantItem, appendBlock]
    split_ifs with ht
    · constructor
      · intro hno
        apply h1
        intro bl hbl
        exact hno bl (by simp [hbl])
      · apply resultTag_snoc _ _ h2
        intro hres
        simp at hres
    · exact ⟨h1, h2⟩
  | toolUse name input =>
    dsimp only [processAssistantItem, appendBlock]
    constructor
    · intro hno
      exfalso
      have := hno ⟨st.seq, "tool_use", summarizeToolInput name input, some name⟩ (by simp)
      simp at this
    · apply resultTag_snoc _ _ h2
      intro hres
      simp at hres
  | toolResult rc => exact ⟨h1, h2⟩
  | image => exact ⟨h1, h2⟩
  | otherDict => exact ⟨h1, h2⟩
  | rawStr s => exact ⟨h1, h2⟩
  | nonDict => exact ⟨h1, h2⟩

lemma resultTag_pui {st : TurnState} (b : ContentItem) (h : ResultTagOK st) :
    ResultTagOK (processUserItem st b) := by
  obtain ⟨h1, h2⟩ := h
  have harm : ∀ txt : String, ResultTagOK (appendBlock st "tool_result" txt (some st.last_tool_name)) := by
    intro txt
    dsimp only [appendBlock]
    constructor
    · intro hno
      apply h1
      intro bl hbl
      exact hno bl (by simp [hbl])
    · apply resultTag_snoc _ _ h2
      intro _ hno
      simp [h1 hno]
  cases b with
  | toolResult rc => cases rc with
    | str s => exact harm _
    | nonStr r => exact harm _
  | text t => exact ⟨h1, h2⟩
  | toolUse name input => exact ⟨h1, h2⟩
  | image => exact ⟨h1, h2⟩
  | otherDict => exact ⟨h1, h2⟩
  | rawStr s => exact ⟨h1, h2⟩
  | nonDict => exact ⟨h1, h2⟩

lemma resultLen_pai {st : TurnState} (b : ContentItem) (h : ResultLenOK st) :
    ResultLenOK (processAssistantItem st b) := by
  have harm : ∀ (st2 : TurnState) (bt c : String) (tn : Option String),
      (∀ bl ∈ st2.blocks, bl.btype = "tool_result" → bl.content.length ≤ 500) →
      (bt = "tool_result" → c.length ≤ 500) →
      ResultLenOK (appendBlock st2 bt c tn) := by
    intro st2 bt c tn hold hc bl hbl hres
    simp [appendBlock] at hbl
    rcases hbl with hbl | rfl
    · exact hold bl hbl hres
    · exact hc hres
  cases b with
  | text t =>
    dsimp only [processAssistantItem]
    split_ifs with ht
    · exact harm _ _ _ _ h (by intro hx; exact absurd hx (by simp))
    · exact h
  | toolUse name input =>
    exact harm _ _ _ _ h (by intro hx; exact absurd hx (by simp))
  | toolResult rc => exact h
  | image => exact h
  | otherDict => exact h
  | rawStr s => exact h
  | nonDict => exact h

lemma resultLen_pui {st : TurnState} (b : ContentItem) (h : ResultLenOK st) :
    ResultLenOK (processUserItem st b) := by
  have harm : ∀ txt : String, txt.length ≤ 500 →
      ResultLenOK (appendBlock st "tool_result" txt (some st.last_tool_name)) := by
    intro txt htxt bl hbl hres
    simp [appendBlock] at hbl
    rcases hbl with hbl | rfl
    · exact h bl hbl hres
    · exact htxt
  cases b with
  | toolResult rc => cases rc with
    | str s => exact harm _ (pySlice_length_le 500 s)
    | nonStr r => exact harm _ (pySlice_length_le 500 r)
  | text t => exact h
  | toolUse name input => exact h
  | image => exact h
  | otherDict => exact h
  | rawStr s => exact h
  | nonDict => exact h

lemma resultTag_pe {st : TurnState} (e : Entry) (h : ResultTagOK st) :
    ResultTagOK (processEntry st e) := by
  have hfa : ∀ (l : List ContentItem) (st2 : TurnState), ResultTagOK st2 →
      ResultTagOK (l.foldl processAssistantItem st2) := by
    intro l
    induction l with
    | nil => intro st2 h2; exact h2
    | cons b t ih => intro st2 h2; exact ih _ (resultTag_pai b h2)
  have hfu : ∀ (l : List ContentItem) (st2 : TurnState), ResultTagOK st2 →
      ResultTagOK (l.foldl processUserItem st2) := by
    intro l
    induction l with
    | nil => intro st2 h2; exact h2
    | cons b t ih => intro st2 h2; exact ih _ (resultTag_pui b h2)
  unfold processEntry
  dsimp only
  rcases hc : e.message.content with s | l | _ <;> dsimp only <;> split_ifs <;>
    (first
      | exact h
      | exact hfa _ _ h
      | exact hfu _ _ h)

lemma resultLen_pe {st : TurnState} (e : Entry) (h : ResultLenOK st) :
    ResultLenOK (processEntry st e) := by
  have hfa : ∀ (l : List ContentItem) (st2 : TurnState), ResultLenOK st2 →
      ResultLenOK (l.foldl processAssistantItem st2) := by
    intro l
    induction l with
    | nil => intro st2 h2; exact h2
    | cons b t ih => intro st2 h2; exact ih _ (resultLen_pai b h2)
  have hfu : ∀ (l : List ContentItem) (st2 : TurnState), ResultLenOK st2 →
      ResultLenOK (l.foldl processUserItem st2) := by
    intro l
    induction l with
    | nil => intro st2 h2; exact h2
    | cons b t ih => intro st2 h2; exact ih _ (resultLen_pui b h2)
  unfold processEntry
  dsimp only
  rcases hc : e.message.content with s | l | _ <;> dsimp only <;> split_ifs <;>
    (first
      | exact h
      | exact hfa _ _ h
      | exact hfu _ _ h)

lemma resultTag_processSlice (slice : List Entry) : ResultTagOK (processSlice slice) := by
  have main : ∀ (sl : List Entry) (st : TurnState), ResultTagOK st →
      ResultTagOK (sl.foldl processEntry st) := by
    intro sl
    induction sl with
    | nil => intro st h; exact h
    | cons e rest ih => intro st h; exact ih _ (resultTag_pe e h)
  exact main slice initState resultTagOK_init

lemma resultLen_processSlice (slice : List Entry) : ResultLenOK (processSlice slice) := by
  have main : ∀ (sl : List Entry) (st : TurnState), ResultLenOK st →
      ResultLenOK (sl.foldl processEntry st) := by
    intro sl
    induction sl with
    | nil => intro st h; exact h
    | cons e rest ih => intro st h; exact ih _ (resultLen_pe e h)
  exact main slice initState resultLenOK_init

/-! ## `buildTurn` and `parseSession` characterizations -/

/-- A successfully built turn is exactly the record assembled from the
slice's final accumulator state. -/
lemma buildTurn_eq {p ts sid : String} {slice : List Entry} {t : Turn}
    (h : buildTurn p ts sid slice = some t) :
    t = ⟨p, turnResponse slice, (processSlice slice).tools, (processSlice slice).blocks,
      ⟨(processSlice slice).turn_model, (processSlice slice).total_input,
        (processSlice slice).total_output, (processSlice slice).total_cache_read,
        (processSlice slice).total_cache_creation, (processSlice slice).stop_reason⟩,
      ts, sid⟩ := by
  unfold buildTurn at h
  dsimp only at h
  split_ifs at h
  exact (Option.some_inj.mp h).symm

/-- A successfully built turn does not have both an empty joined text
response and an empty tool list. -/
lemma buildTurn_not_empty {p ts sid : String} {slice : List Entry} {t : Turn}
    (h : buildTurn p ts sid slice = some t) :
    ¬(String.intercalate "\n\n" (processSlice slice).response_texts = "" ∧
      (processSlice slice).tools = []) := by
  unfold buildTurn at h
  dsimp only at h
  split_ifs at h with hguard
  exact hguard

/-- Every turn of `parseSession` arises from `buildTurn` on some slice
determined by a turn range. -/
lemma mem_parseSession {entries : List Entry} {t : Turn} (h : t ∈ parseSession entries) :
    ∃ r ∈ turnRanges entries,
      buildTurn (extractUserPromptText (entries.getD r.1 default).message.content)
        (entries.getD r.1 default).timestamp
        (firstNonEmpty (fun e => e.sessionId) entries)
        ((entries.drop (r.1 + 1)).take (r.2 - (r.1 + 1))) = some t := by
  unfold parseSession at h
  obtain ⟨r, hr, heq⟩ := List.mem_filterMap.mp h
  exact ⟨r, hr, heq⟩

/-! ## Example inputs used by witnesses and counterexamples -/

/-- A user entry with the given content (timestamp `t0`, session
`sess1`). -/
def exUserEntry (c : MsgContent) : Entry :=
  ⟨"user", ⟨c, "", ⟨none, none, none, none⟩, ""⟩, "t0", "sess1", "", ""⟩

/-- An assistant entry with the given content, stop_reason, model and
input/output token counts. -/
def exAssistantEntry (c : MsgContent) (stop model : String) (inp out : Option Nat) : Entry :=
  ⟨"assistant", ⟨c, model, ⟨inp, out, none, none⟩, stop⟩, "", "", "", ""⟩

/-! ## Claim C1 -/

/-- **C1**: for every turn produced by `parse_session`, block `k` of
the turn carries sequence number `k` (ascending, gap-free, from 0), and
the (type, content) sequence of the blocks equals the concatenation, in
raw-log order, of the blocks contributed by each entry of the turn's
entry slice — i.e. text/tool_use/tool_result blocks appear in exactly
their source order. -/
theorem c1_blocks_sequence_and_order (entries : List Entry) (t : Turn)
    (h : t ∈ parseSession entries) :
    (∀ k (hk : k < t.blocks.length), (t.blocks.get ⟨k, hk⟩).sequence = k) ∧
    ∃ r ∈ turnRanges entries,
      mapCore t.blocks =
        ((entries.drop (r.1 + 1)).take (r.2 - (r.1 + 1))).flatMap entryBlockCore := by
  obtain ⟨r, hr, heq⟩ := mem_parseSession h
  have ht := buildTurn_eq heq
  have hb : t.blocks =
      (processSlice ((entries.drop (r.1 + 1)).take (r.2 - (r.1 + 1)))).blocks := by
    rw [ht]
  constructor
  · intro k hk
    obtain ⟨h1, h2⟩ := seqOK_processSlice ((entries.drop (r.1 + 1)).take (r.2 - (r.1 + 1)))
    have e2 : t.blocks.map (fun b => b.sequence) = List.range t.blocks.length := by
      rw [hb]
      exact h2
    rw [List.get_eq_getElem]
    have hk2 : k < (t.blocks.map (fun b => b.sequence)).length := by simpa using hk
    have e1 : t.blocks[k].sequence = (t.blocks.map (fun b => b.sequence))[k] := by
      simp
    rw [e1]
    simp [e2]
  · exact ⟨r, hr, by rw [hb]; exact processSlice_blocks_core _⟩

/-- Entries whose single turn interleaves a text block, a tool_use
block and a tool_result block. -/
def exC1entries : List Entry :=
  [exUserEntry (.str "go"),
   exAssistantEntry (.items [.text "did it", .toolUse "Bash" [("command", "ls")]]) "" "" none none,
   exUserEntry (.items [.toolResult (.str "out")])]

/-- The turn `parse_session` produces from `exC1entries`. -/
def exC1turn : Turn :=
  ⟨"go", "did it",
   [⟨"Bash", "ls", "", false⟩],
   [⟨0, "text", "did it", none⟩, ⟨1, "tool_use", "ls", some "Bash"⟩,
    ⟨2, "tool_result", "out", some "Bash"⟩],
   ⟨"", 0, 0, 0, 0, ""⟩, "t0", "sess1"⟩

/-- Witness for C1 at a concrete log. -/
theorem c1_witness :
    (exC1turn.blocks.get ⟨2, by decide⟩).sequence = 2 ∧
    mapCore exC1turn.blocks = ((exC1entries.drop 1).take 2).flatMap entryBlockCore := by
  have h := c1_blocks_sequence_and_order exC1entries exC1turn (by decide)
  refine ⟨h.1 2 (by decide), ?_⟩
  decide

/-! ## Claim C2 -/

/-- Counterexample to C2 as stated: in this log the last assistant
entry of the turn's slice reports no stop_reason (modelled `""`), yet
the turn's `stop_reason` is `"end_turn"`, the value of the *earlier*
assistant entry — so `stop_reason` is not taken from the last assistant
entry seen. -/
def exC2entries : List Entry :=
  [exUserEntry (.str "hi"),
   exAssistantEntry (.items [.text "ok"]) "end_turn" "claude-x" (some 10) (some 3),
   exAssistantEntry (.items []) "" "" (some 5) (some 2)]

theorem c2_counterexample :
    ((parseSession exC2entries).map fun t => t.metrics.stop_reason) = ["end_turn"] ∧
    ((exC2entries.filter fun e => decide (e.etype = "assistant")).getLast?.map
      fun e => e.message.stop_reason) = some "" ∧
    ("end_turn" : String) ≠ "" := by
  refine ⟨by decide, by decide, by decide⟩

/-- **C2 (amended)**: for every built turn, each token metric equals
the exact sum of the corresponding usage counter over all assistant
entries of the slice (missing counters contributing 0); the model is
that of the first assistant entry reporting a model; and the
stop_reason is that of the last assistant entry reporting a non-empty
stop_reason (empty when none does) — not of the last assistant entry
unconditionally. -/
theorem c2_metrics_aggregation (p ts sid : String) (slice : List Entry) (t : Turn)
    (h : buildTurn p ts sid slice = some t) :
    t.metrics.input_tokens = assistantUsageSum Usage.input_tokens slice ∧
    t.metrics.output_tokens = assistantUsageSum Usage.output_tokens slice ∧
    t.metrics.cache_read_tokens = assistantUsageSum Usage.cache_read_input_tokens slice ∧
    t.metrics.cache_creation_tokens = assistantUsageSum Usage.cache_creation_input_tokens slice ∧
    t.metrics.model = firstAssistantModel slice ∧
    t.metrics.stop_reason = lastReportedStop slice := by
  have ht := buildTurn_eq h
  rw [ht]
  exact ⟨processSlice_input _, processSlice_output _, processSlice_cread _,
    processSlice_ccreate _, processSlice_model _, processSlice_stop _⟩

/-- The slice of the turn in `exC2entries`: two assistant entries whose
usage counters must be summed. -/
def exC2slice : List Entry := exC2entries.drop 1

/-- The turn built from `exC2slice`. -/
def exC2turn : Turn :=
  ⟨"hi", "ok", [], [⟨0, "text", "ok", none⟩], ⟨"claude-x", 15, 5, 0, 0, "end_turn"⟩,
   "t0", "sess1"⟩

/-- Witness for the amended C2 at a concrete two-assistant-entry
slice. -/
theorem c2_witness :
    exC2turn.metrics.input_tokens = assistantUsageSum Usage.input_tokens exC2slice ∧
    exC2turn.metrics.output_tokens = assistantUsageSum Usage.output_tokens exC2slice ∧
    exC2turn.metrics.cache_read_tokens =
      assistantUsageSum Usage.cache_read_input_tokens exC2slice ∧
    exC2turn.metrics.cache_creation_tokens =
      assistantUsageSum Usage.cache_creation_input_tokens exC2slice ∧
    exC2turn.metrics.model = firstAssistantModel exC2slice ∧
    exC2turn.metrics.stop_reason = lastReportedStop exC2slice :=
  c2_metrics_aggregation "hi" "t0" "sess1" exC2slice exC2turn (by decide)

/-! ## Claim C3 -/

/-- **C3**: for every built turn in which no assistant text block with
non-empty stripped text occurs but at least one tool_use occurs, the
response is `"[tool-only turn: "` + the tool names joined by `", "` in
call order + `"]"`. -/
theorem c3_tool_only_response (p ts sid : String) (slice : List Entry) (t : Turn)
    (h : buildTurn p ts sid slice = some t)
    (hnotext : slice.flatMap entryTexts = [])
    (htools : slice.flatMap entryTools ≠ []) :
    t.response = "[tool-only turn: " ++
      String.intercalate ", " (t.tools.map fun tc => tc.tool_name) ++ "]" := by
  have ht := buildTurn_eq h
  have hresp : (processSlice slice).response_texts = [] := by
    rw [processSlice_texts]; exact hnotext
  have htl : (processSlice slice).tools ≠ [] := by
    rw [processSlice_tools]; exact htools
  rw [ht]
  show turnResponse slice = _
  unfold turnResponse
  dsimp only
  rw [hresp]
  simp [htl, show "\n\n".intercalate ([] : List String) = "" from rfl]

/-- A slice with two tool calls and no text blocks. -/
def exC3slice : List Entry :=
  [exAssistantEntry (.items [.toolUse "Bash" [("command", "ls")],
    .toolUse "Read" [("file_path", "/a")]]) "" "" none none]

/-- The turn built from `exC3slice`: a tool-only turn. -/
def exC3turn : Turn :=
  ⟨"go", "[tool-only turn: Bash, Read]",
   [⟨"Bash", "ls", "", false⟩, ⟨"Read", "/a", "/a", false⟩],
   [⟨0, "tool_use", "ls", some "Bash"⟩, ⟨1, "tool_use", "/a", some "Read"⟩],
   ⟨"", 0, 0, 0, 0, ""⟩, "t0", "sess1"⟩

/-- Witness for C3: the two-tool instance produces
`"[tool-only turn: Bash, Read]"` in call order. -/
theorem c3_witness :
    exC3turn.response = "[tool-only turn: " ++
      String.intercalate ", " (exC3turn.tools.map fun tc => tc.tool_name) ++ "]" ∧
    exC3turn.response = "[tool-only turn: Bash, Read]" := by
  refine ⟨c3_tool_only_response "go" "t0" "sess1" exC3slice exC3turn (by decide)
    (by decide) (by decide), by decide⟩

/-! ## Claim C4 -/

/-- Counterexample to C4 as stated: a user entry whose structured
content holds a single empty text block anchors a turn (it is not
tool_result-only), and the extracted prompt is the empty string — yet
the turn is emitted, so turns with an empty prompt are *not* dropped. -/
def exC4entries : List Entry :=
  [exUserEntry (.items [.text ""]),
   exAssistantEntry (.items [.text "hi"]) "" "" none none]

theorem c4_counterexample :
    ((parseSession exC4entries).map fun t => t.prompt) = [""] ∧
    ¬(∀ t ∈ parseSession exC4entries, t.prompt ≠ "") := by
  refine ⟨by decide, by decide⟩

/-- **C4 (amended)**: every emitted turn has a non-empty response or a
non-empty tools list (a turn with neither is dropped entirely); the
prompt, however, may be empty when the anchoring user entry's
structured content yields no text. -/
theorem c4_response_or_tools (entries : List Entry) (t : Turn)
    (h : t ∈ parseSession entries) :
    t.response ≠ "" ∨ t.tools ≠ [] := by
  obtain ⟨r, hr, heq⟩ := mem_parseSession h
  have ht := buildTurn_eq heq
  have hg := buildTurn_not_empty heq
  by_cases hb : (processSlice ((entries.drop (r.1 + 1)).take (r.2 - (r.1 + 1)))).tools = []
  · left
    rw [ht]
    show turnResponse _ ≠ ""
    unfold turnResponse
    dsimp only
    have hni : ¬(String.intercalate "\n\n"
        (processSlice ((entries.drop (r.1 + 1)).take (r.2 - (r.1 + 1)))).response_texts = "") := by
      intro hcon
      exact hg ⟨hcon, hb⟩
    simp [hb, hni]
  · right
    rw [ht]
    exact hb

/-- Entries producing a turn with a plain text response. -/
def exC4wentries : List Entry :=
  [exUserEntry (.str "go"), exAssistantEntry (.items [.text "hello"]) "" "" none none]

/-- The turn `parse_session` produces from `exC4wentries`. -/
def exC4wturn : Turn :=
  ⟨"go", "hello", [], [⟨0, "text", "hello", none⟩], ⟨"", 0, 0, 0, 0, ""⟩, "t0", "sess1"⟩

/-- Witness for the amended C4. -/
theorem c4_witness : exC4wturn.response ≠ "" ∨ exC4wturn.tools ≠ [] :=
  c4_response_or_tools exC4wentries exC4wturn (by decide)

/-! ## Claim C10 -/

/-- **C10**: in every turn produced by `parse_session`, every
tool_result block's content is at most 500 characters, and a
tool_result block preceded by no tool_use block in the turn is tagged
with the empty-string tool name. -/
theorem c10_tool_result_blocks (entries : List Entry) (t : Turn)
    (h : t ∈ parseSession entries) :
    (∀ b ∈ t.blocks, b.btype = "tool_result" → b.content.length ≤ 500) ∧
    (∀ k (hk : k < t.blocks.length), (t.blocks.get ⟨k, hk⟩).btype = "tool_result" →
      (∀ b ∈ t.blocks.take k, b.btype ≠ "tool_use") →
      (t.blocks.get ⟨k, hk⟩).tool_name = some "") := by
  obtain ⟨r, hr, heq⟩ := mem_parseSession h
  have ht := buildTurn_eq heq
  have hb : t.blocks =
      (processSlice ((entries.drop (r.1 + 1)).take (r.2 - (r.1 + 1)))).blocks := by
    rw [ht]
  constructor
  · rw [hb]
    exact resultLen_processSlice _
  · rw [hb]
    exact (resultTag_processSlice _).2

/-- Entries whose turn receives a tool_result block before any
tool_use block. -/
def exC10entries : List Entry :=
  [exUserEntry (.str "hi"),
   exUserEntry (.items [.toolResult (.str "out")]),
   exAssistantEntry (.items [.text "ok"]) "" "" none none]

/-- The turn `parse_session` produces from `exC10entries`. -/
def exC10turn : Turn :=
  ⟨"hi", "ok", [],
   [⟨0, "tool_result", "out", some ""⟩, ⟨1, "text", "ok", none⟩],
   ⟨"", 0, 0, 0, 0, ""⟩, "t0", "sess1"⟩

/-- Witness for C10: the leading tool_result block is tagged with the
empty tool name and its content is within the 500-character bound. -/
theorem c10_witness :
    (exC10turn.blocks.get ⟨0, by decide⟩).tool_name = some "" ∧
    (exC10turn.blocks.get ⟨0, by decide⟩).content.length ≤ 500 := by
  have h := c10_tool_result_blocks exC10entries exC10turn (by decide)
  refine ⟨h.2 0 (by decide) (by decide) ?_, ?_⟩
  · intro b hb
    simp at hb
  · exact h.1 ⟨0, "tool_result", "out", some ""⟩ (by decide) (by decide)

/-! ## Claim C6 -/

/-- A prompt of exactly 100 words (counting the `#` and `Header`
tokens) starting with a single markdown H1 header line. -/
def exC6prompt100 : String :=
  "# Header\n" ++ String.intercalate " " (List.replicate 98 "w")

/-- The same prompt with one word fewer: 99 words. -/
def exC6prompt99 : String :=
  "# Header\n" ++ String.intercalate " " (List.replicate 97 "w")

set_option maxRecDepth 40000 in
/-- **C6**: a prompt is classified as a skill expansion iff it matches
the H1-header pattern `^#\s+\w+\s*\n` AND its total word count is at
least 100 (the non-blank pre-check is implied by the pattern, whose
first character is `#`); in particular the 100-word prompt above is
excluded while the 99-word one is not. -/
theorem c6_skill_expansion_rule :
    (∀ p : String, isSkillExpansion p =
      (skillExpansionMatch p.data && decide (100 ≤ pyWordCount p))) ∧
    isSkillExpansion exC6prompt100 = true ∧
    isSkillExpansion exC6prompt99 = false := by
  refine ⟨?_, by decide, by decide⟩
  intro p
  unfold isSkillExpansion
  by_cases hm : skillExpansionMatch p.data
  · have hns : hasNonSpace p.data = true := by
      cases hd : p.data with
      | nil => rw [hd] at hm; exact absurd hm (by decide)
      | cons c t =>
        rw [hd] at hm
        unfold skillExpansionMatch at hm
        dsimp only at hm
        split_ifs at hm with hc
        · subst hc
          simp [hasNonSpace, pyIsSpace]
    simp [hns, hm, SKILL_EXPANSION_MIN_WORDS]
  · by_cases hns : hasNonSpace p.data <;> simp [hm, hns]

/-! ## Claim C9 -/

/-- A 201-character file path. -/
def exC9path : String := ⟨List.replicate 201 'a'⟩

/-- Entries whose turn contains a Read tool call with a 201-character
file path. -/
def exC9entries : List Entry :=
  [exUserEntry (.str "read it"),
   exAssistantEntry (.items [.toolUse "Read" [("file_path", exC9path)]]) "" "" none none]

set_option maxRecDepth 40000 in
/-- Counterexample to C9 as stated: segmentation produces a ToolCall
whose `input_summary` is 201 characters long — the file-path branch of
`_summarize_tool_input` performs no truncation. -/
theorem c9_counterexample :
    ((parseSession exC9entries).flatMap fun t =>
      t.tools.map fun tc => tc.input_summary.length) = [201] ∧
    ¬(201 ≤ 200) := by
  refine ⟨by decide, by decide⟩

/-- **C9 (amended)**: `input_summary` is truncated to at most 200
characters for `Bash` (command), `Task` (prompt), and unrecognized
tools (stringified input); for `Read`/`Write`/`Edit` it is the file
path, for `Grep`/`Glob` it is `"pattern="` + the pattern, for
`WebSearch` the query and for `WebFetch` the url — each returned
without truncation, hence of unbounded length. -/
theorem c9_input_summary_truncation (tool_name : String) (tool_input : List (String × String)) :
    ((tool_name = "Bash" ∨ tool_name = "Task" ∨
      (tool_name ≠ "Bash" ∧ tool_name ≠ "Read" ∧ tool_name ≠ "Write" ∧ tool_name ≠ "Edit" ∧
       tool_name ≠ "Grep" ∧ tool_name ≠ "Glob" ∧ tool_name ≠ "WebSearch" ∧
       tool_name ≠ "WebFetch" ∧ tool_name ≠ "Task")) →
      (summarizeToolInput tool_name tool_input).length ≤ 200) ∧
    ((tool_name = "Read" ∨ tool_name = "Write" ∨ tool_name = "Edit") →
      summarizeToolInput tool_name tool_input = lookupD tool_input "file_path") ∧
    ((tool_name = "Grep" ∨ tool_name = "Glob") →
      summarizeToolInput tool_name tool_input = "pattern=" ++ lookupD tool_input "pattern") ∧
    (tool_name = "WebSearch" → summarizeToolInput tool_name tool_input = lookupD tool_input "query") ∧
    (tool_name = "WebFetch" → summarizeToolInput tool_name tool_input = lookupD tool_input "url") := by
  refine ⟨?_, ?_, ?_, ?_, ?_⟩
  · rintro (rfl | rfl | ⟨h1, h2, h3, h4, h5, h6, h7, h8, h9⟩)
    · simp only [summarizeToolInput, if_pos rfl]
      exact pySlice_length_le 200 _
    · simp [summarizeToolInput]
      exact pySlice_length_le 200 _
    · simp [summarizeToolInput, h1, h2, h3, h4, h5, h6, h7, h8, h9]
      exact pySlice_length_le 200 _
  · rintro (rfl | rfl | rfl) <;> simp [summarizeToolInput]
  · rintro (rfl | rfl) <;> simp [summarizeToolInput]
  · rintro rfl; simp [summarizeToolInput]
  · rintro rfl; simp [summarizeToolInput]

/-- Witness for the amended C9: a Bash command summary is within the
200-character bound. -/
theorem c9_witness :
    (summarizeToolInput "Bash" [("command", exC9path)]).length ≤ 200 :=
  (c9_input_summary_truncation "Bash" [("command", exC9path)]).1 (Or.inl rfl)

/-! ## Claim C7 -/

/-- A bare turn carrying only a prompt and a session id, as consumed by
the analyzers. -/
def exTurn (p sid : String) : Turn :=
  ⟨p, "ok", [], [], ⟨"", 0, 0, 0, 0, ""⟩, "t0", sid⟩

/-- The two prompts of the C7 scenario. -/
def exC7turns : List Turn :=
  [exTurn "You must fix this now" "s1", exTurn "We need to ensure correctness" "s1"]

/-- **C7**: `certainty_markers.ratio` is `None` — not zero, not
infinity, and no exception — exactly when `hedging_count` is 0, and
equals `assertive_count / hedging_count` whenever `hedging_count > 0`;
on the scenario prompts the hedging count is 0 and the ratio is
`None`. -/
theorem c7_certainty_ratio :
    ((certaintyMarkersOfTurns exC7turns).hedging_count = 0 ∧
      (certaintyMarkersOfTurns exC7turns).ratio = none) ∧
    (∀ turns : List Turn,
      ((certaintyMarkersOfTurns turns).ratio = none ↔
        (certaintyMarkersOfTurns turns).hedging_count = 0)) ∧
    (∀ turns : List Turn, 0 < (certaintyMarkersOfTurns turns).hedging_count →
      (certaintyMarkersOfTurns turns).ratio =
        some (((certaintyMarkersOfTurns turns).assertive_count : ℚ) /
          ((certaintyMarkersOfTurns turns).hedging_count : ℚ))) := by
  refine ⟨⟨by decide, by decide⟩, ?_, ?_⟩
  · intro turns
    unfold certaintyMarkersOfTurns computeCertaintyMarkers
    dsimp only
    split_ifs with h
    · constructor
      · intro hcon
        exact absurd hcon (by simp)
      · intro h0
        omega
    · constructor
      · intro _
        omega
      · intro _
        rfl
  · intro turns h
    unfold certaintyMarkersOfTurns computeCertaintyMarkers at h ⊢
    dsimp only at h ⊢
    rw [if_pos h]

/-- A turn collection with one hedging phrase (`"maybe"`) and one
assertive phrase (`"must"`). -/
def exC7wturns : List Turn :=
  [exTurn "maybe we must go" "s1"]

/-- Witness for C7: with a positive hedging count the ratio is the
assertive/hedging quotient. -/
theorem c7_witness :
    (certaintyMarkersOfTurns exC7wturns).ratio =
      some (((certaintyMarkersOfTurns exC7wturns).assertive_count : ℚ) /
        ((certaintyMarkersOfTurns exC7wturns).hedging_count : ℚ)) :=
  c7_certainty_ratio.2.2 exC7wturns (by decide)

/-! ## Claim C8 -/

/-- Two prompts with word counts 1 and 3: the sample variance of
`[1, 3]` is 2 while the population variance is 1, so the two standard
deviations (√2 vs 1) differ. -/
def exC8turns : List Turn :=
  [exTurn "a" "s1", exTurn "b c d" "s1"]

/-- Counterexample to C8 as stated: the code's stddev (the square root
of `promptLengthStddevSq`, which divides by n−1 as `statistics.stdev`
does) differs from the population standard deviation (the square root
of `specPopStddevSq`, which divides by n) on the word counts
`[1, 3]`. -/
theorem c8_counterexample :
    Real.sqrt ((promptLengthStddevSq exC8turns : ℚ) : ℝ) ≠
      Real.sqrt ((specPopStddevSq exC8turns : ℚ) : ℝ) := by
  have hw : wcsQ exC8turns = [(1 : ℚ), 3] := by
    have h : filteredWordCounts exC8turns = [1, 3] := by decide
    unfold wcsQ
    rw [h]
    norm_num
  have h1 : promptLengthStddevSq exC8turns = 2 := by
    unfold promptLengthStddevSq sampleVarQ sumSqDev meanQ
    dsimp only
    rw [hw]
    norm_num
  have h2 : specPopStddevSq exC8turns = 1 := by
    unfold specPopStddevSq sumSqDev meanQ
    dsimp only
    rw [hw]
    norm_num
  rw [h1, h2]
  push_cast
  intro hcon
  have e2 : Real.sqrt 2 ^ 2 = 2 := Real.sq_sqrt (by norm_num)
  rw [hcon, Real.sqrt_one] at e2
  norm_num at e2

/-- **C8 (amended)**: `prompt_length.stddev` is the *sample*
(Bessel-corrected, `statistics.stdev`) standard deviation of the
per-prompt word counts — the non-negative number whose square times
(n−1) is the sum of squared deviations from the mean — and equals 0
when there are fewer than 2 filtered prompts. -/
theorem c8_stddev_sample (turns : List Turn) :
    ((wcsQ turns).length < 2 → promptLengthStddevSq turns = 0) ∧
    (2 ≤ (wcsQ turns).length →
      Real.sqrt ((promptLengthStddevSq turns : ℚ) : ℝ) ^ 2 *
          (((wcsQ turns).length : ℝ) - 1) =
        ((sumSqDev (wcsQ turns) : ℚ) : ℝ) ∧
      0 ≤ Real.sqrt ((promptLengthStddevSq turns : ℚ) : ℝ)) := by
  constructor
  · intro hlt
    unfold promptLengthStddevSq
    dsimp only
    rw [if_neg (by omega)]
  · intro hge
    have hS : (0 : ℚ) ≤ sumSqDev (wcsQ turns) := by
      unfold sumSqDev
      apply List.sum_nonneg
      intro x hx
      obtain ⟨y, hy, rfl⟩ := List.mem_map.mp hx
      positivity
    have hn1 : (0 : ℚ) < ((wcsQ turns).length : ℚ) - 1 := by
      have : (2 : ℚ) ≤ ((wcsQ turns).length : ℚ) := by exact_mod_cast hge
      linarith
    have hv : promptLengthStddevSq turns = sumSqDev (wcsQ turns) / (((wcsQ turns).length : ℚ) - 1) := by
      unfold promptLengthStddevSq sampleVarQ
      dsimp only
      rw [if_pos hge]
    have hvpos : (0 : ℚ) ≤ promptLengthStddevSq turns := by
      rw [hv]
      exact div_nonneg hS (le_of_lt hn1)
    constructor
    · have hsq : Real.sqrt ((promptLengthStddevSq turns : ℚ) : ℝ) ^ 2 =
          ((promptLengthStddevSq turns : ℚ) : ℝ) := by
        apply Real.sq_sqrt
        exact_mod_cast hvpos
      rw [hsq, hv]
      push_cast
      rw [div_mul_cancel₀]
      exact_mod_cast ne_of_gt hn1
    · exact Real.sqrt_nonneg _

/-- Witness for the amended C8 at the word counts `[1, 3]`. -/
theorem c8_witness :
    Real.sqrt ((promptLengthStddevSq exC8turns : ℚ) : ℝ) ^ 2 *
        (((wcsQ exC8turns).length : ℝ) - 1) =
      ((sumSqDev (wcsQ exC8turns) : ℚ) : ℝ) ∧
    0 ≤ Real.sqrt ((promptLengthStddevSq exC8turns : ℚ) : ℝ) :=
  (c8_stddev_sample exC8turns).2 (by decide)

/-! ## Claim C5 -/

/-- The number of adjacent turn pairs `(i, i+1)` sharing a session id —
the spec's "eligible pairs", expressed over indices. -/
def adjacentSameSession (turns : List Turn) : Nat :=
  ((List.range (turns.length - 1)).filter (fun i =>
    decide ((turns.getD i default).session_id = (turns.getD (i + 1) default).session_id))).length

/-- The number of adjacent same-session pairs whose *later* turn's
prompt contains a correction marker. -/
def adjacentCorrections (turns : List Turn) : Nat :=
  ((List.range (turns.length - 1)).filter (fun i =>
    decide ((turns.getD i default).session_id = (turns.getD (i + 1) default).session_id) &&
    isCorrection (turns.getD (i + 1) default).prompt)).length

/-- Zipping a list with its tail enumerates exactly the indexed
adjacent pairs. -/
lemma zip_tail_eq {α : Type} [Inhabited α] (l : List α) :
    l.zip l.tail = (List.range (l.length - 1)).map
      (fun i => (l.getD i default, l.getD (i + 1) default)) := by
  induction l with
  | nil => rfl
  | cons a l ih =>
    cases l with
    | nil => rfl
    | cons b t =>
      have h1 : (a :: b :: t).length - 1 = t.length + 1 := rfl
      rw [h1, List.range_succ_eq_map]
      simp only [List.map_cons, List.map_map]
      show (a, b) :: ((b :: t).zip t) = _
      congr 1

/-- Length of a filterMap that keeps exactly the elements satisfying a
predicate. -/
lemma length_filterMap_ite {α β : Type} (l : List α) (P : α → Prop) [DecidablePred P]
    (g : α → β) :
    (l.filterMap (fun a => if P a then some (g a) else none)).length
      = (l.filter (fun a => decide (P a))).length := by
  induction l with
  | nil => rfl
  | cons a t ih => by_cases h : P a <;> simp [h, ih]

/-- Length of the sub-list of kept pairs whose boolean component is
true. -/
lemma length_filterMap_ite_snd {α β : Type} (l : List α) (P : α → Prop) [DecidablePred P]
    (g : α → β) (q : α → Bool) :
    (((l.filterMap (fun a => if P a then some (g a, q a) else none)).filter
        (fun x => x.2)).length)
      = (l.filter (fun a => decide (P a) && q a)).length := by
  induction l with
  | nil => rfl
  | cons a t ih =>
    by_cases h : P a
    · by_cases h2 : q a = true <;> simp [h, h2, ih]
    · simp [h, ih]

/-- The three-prompt scenario of the claim: one session, two eligible
pairs, both corrected. -/
def exC5turns : List Turn :=
  [exTurn "Fix the bug" "s1",
   exTurn "No, actually fix it differently" "s1",
   exTurn "Actually, try another approach" "s1"]

/-- **C5**: on the scenario prompts the effectiveness signals are
`eligible_turns = 2`, `corrections_total = 2`, `correction_rate = 1`,
`first_response_acceptance = 0`; in general (for collections without
skill expansions) the eligible pairs are exactly the adjacent pairs
sharing a session id, a pair is corrected iff the later prompt contains
a correction marker, and `first_response_acceptance`
`= 1 - correction_rate`. -/
theorem c5_effectiveness_signals :
    (effSignals exC5turns = ⟨1, 2, 2, 0⟩) ∧
    (∀ turns : List Turn, (∀ t ∈ turns, isSkillExpansion t.prompt = false) →
      (effSignals turns).eligible_turns = adjacentSameSession turns ∧
      (effSignals turns).corrections_total = adjacentCorrections turns ∧
      (effSignals turns).first_response_acceptance =
        1 - (effSignals turns).correction_rate) := by
  constructor
  · have h1 : ((2 : Nat) : ℚ) / ((2 : Nat) : ℚ) = 1 := by norm_num
    have hp : ((exC5turns.zip exC5turns.tail).filterMap (fun ab =>
        if ab.1.session_id = ab.2.session_id then some (ab.1, isCorrection ab.2.prompt)
        else none)) =
        [(exTurn "Fix the bug" "s1", true),
         (exTurn "No, actually fix it differently" "s1", true)] := by decide
    unfold effSignals
    dsimp only
    rw [show exC5turns.filter (fun t => !isSkillExpansion t.prompt) = exC5turns from by decide]
    rw [if_neg (by decide)]
    rw [hp]
    rw [if_neg (by decide)]
    show EffSignals.mk _ _ _ _ = _
    rw [show (([(exTurn "Fix the bug" "s1", true),
      (exTurn "No, actually fix it differently" "s1", true)].filter
        (fun p => p.2)).length) = 2 from by decide]
    norm_num
  · intro turns hns
    have hfilter : turns.filter (fun t => !isSkillExpansion t.prompt) = turns := by
      rw [List.filter_eq_self]
      intro t ht
      simp [hns t ht]
    have hp1 : ((turns.zip turns.tail).filterMap (fun ab =>
        if ab.1.session_id = ab.2.session_id then some (ab.1, isCorrection ab.2.prompt)
        else none)).length = adjacentSameSession turns := by
      rw [zip_tail_eq, List.filterMap_map]
      exact length_filterMap_ite (List.range (turns.length - 1))
        (fun i => (turns.getD i default).session_id = (turns.getD (i + 1) default).session_id)
        (fun i => (turns.getD i default, isCorrection (turns.getD (i + 1) default).prompt))
    have hp2 : (((turns.zip turns.tail).filterMap (fun ab =>
        if ab.1.session_id = ab.2.session_id then some (ab.1, isCorrection ab.2.prompt)
        else none)).filter (fun x => x.2)).length = adjacentCorrections turns := by
      rw [zip_tail_eq, List.filterMap_map]
      exact length_filterMap_ite_snd (List.range (turns.length - 1))
        (fun i => (turns.getD i default).session_id = (turns.getD (i + 1) default).session_id)
        (fun i => turns.getD i default)
        (fun i => isCorrection (turns.getD (i + 1) default).prompt)
    unfold effSignals
    dsimp only
    rw [hfilter]
    split_ifs with hlen hpe
    · -- fewer than 2 turns: no adjacent pairs at all
      have h0 : turns.length - 1 = 0 := by omega
      refine ⟨?_, ?_, by norm_num [emptyEffSignals]⟩ <;>
        simp [emptyEffSignals, adjacentSameSession, adjacentCorrections, h0]
    · -- no eligible pairs
      rw [List.isEmpty_iff] at hpe
      have hz : adjacentSameSession turns = 0 := by
        rw [← hp1, hpe]
        rfl
      have hz2 : adjacentCorrections turns = 0 := by
        rw [← hp2, hpe]
        rfl
      exact ⟨by simp [emptyEffSignals, hz], by simp [emptyEffSignals, hz2],
        by norm_num [emptyEffSignals]⟩
    · exact ⟨hp1, hp2, rfl⟩

/-- Witness for C5's general part, at the scenario input. -/
theorem c5_witness :
    (effSignals exC5turns).eligible_turns = adjacentSameSession exC5turns ∧
    (effSignals exC5turns).corrections_total = adjacentCorrections exC5turns ∧
    (effSignals exC5turns).first_response_acceptance =
      1 - (effSignals exC5turns).correction_rate :=
  c5_effectiveness_signals.2 exC5turns (by decide)

end Confessional
